import Mathlib

/-!
Verification of the CRL points-tracking bot (`src/bot.py`).

The development shallowly embeds the pipeline of the bot: the rank-to-points
table (`PointManager.calculate_points`), percentage allocation
(`PointManager.calculate_order_percentages`), the rank matcher
(`RoyaleAPIScraper.find_linked_players_in_top_8`), the trailing-comma cleanup
of the extractor (`extract_player_data_from_json`), the point-update batch
(`update_points_for_leaderboard`), persistence (`Database.save_player_data`
and `Database.load_player_data`), the ownership-index rebuild
(`update_user_accounts`), and the administrative link command
(`validate_player_tag` and `link_slash`).

Python dictionaries are modelled as insertion-ordered association lists;
Python dictionary keys may be ints or strs (the two occur for
`user_accounts`), modelled by `PyKey`.  Machine integers are `Int`
(Python ints are unbounded, so no wrap-around modelling is needed).
Functions that can raise an uncaught exception return `Except String`.
-/

namespace CRLBot

/-- One value of the `player_data` registry:
`\x7b"discord_id": id, "points": int, "name": str\x7d`. -/
structure PlayerRec where
  discord_id : Int
  points : Int
  name : String
deriving DecidableEq

/-- `player_data`: insertion-ordered dict from normalized tag to record. -/
abbrev Registry := List (String × PlayerRec)

/-- A Python dict key: `user_accounts` holds int keys in memory but str keys
after a JSON round trip.  Python `==` never identifies an int with a str. -/
inductive PyKey where
  | intKey (n : Int)
  | strKey (s : String)
deriving DecidableEq

/-- In-memory `user_accounts`: dict from owner key to list of tags. -/
abbrev Index := List (PyKey × List String)

/-- Python dict lookup on an association list (first matching key wins). -/
def dictLookup {α β : Type} [DecidableEq α] (k : α) : List (α × β) → Option β
  | [] => none
  | kv :: rest => if k = kv.1 then some kv.2 else dictLookup k rest

/-- Python dict assignment `d[k] = v`: replace in place if the key is
present, otherwise append at the end (insertion order). -/
def updateEntry {α β : Type} [DecidableEq α] (d : List (α × β)) (k : α) (v : β) :
    List (α × β) :=
  if (dictLookup k d).isSome then
    d.map (fun kv => if kv.1 = k then (kv.1, v) else kv)
  else d ++ [(k, v)]

/-- `PointManager.POINT_SYSTEM` (bot.py lines 154-163). -/
def POINT_SYSTEM : List (Int × Int) :=
  [(1, 20), (2, 14), (3, 12), (4, 10), (5, 8), (6, 6), (7, 4), (8, 2)]

/-- `PointManager.calculate_points` (bot.py lines 165-168):
`POINT_SYSTEM.get(rank, 0)`. -/
def calculate_points (rank : Int) : Int :=
  (dictLookup rank POINT_SYSTEM).getD 0

/-- Closed form of `calculate_points`, shared by several proofs. -/
lemma calculate_points_closed (r : Int) :
    calculate_points r =
      if r = 1 then 20 else if r = 2 then 14 else if r = 3 then 12
      else if r = 4 then 10 else if r = 5 then 8 else if r = 6 then 6
      else if r = 7 then 4 else if r = 8 then 2 else 0 := by
  simp only [calculate_points, POINT_SYSTEM, dictLookup]
  split_ifs <;> rfl

lemma calculate_points_nonneg (r : Int) : 0 ≤ calculate_points r := by
  rw [calculate_points_closed]
  split_ifs <;> norm_num

/-- C1: `calculate_points` returns the fixed table value 20, 14, 12, 10, 8,
6, 4, 2 for ranks 1 through 8, and 0 for every other integer rank. -/
theorem points_for_rank_table (r : Int) :
    calculate_points r =
      if r = 1 then 20 else if r = 2 then 14 else if r = 3 then 12
      else if r = 4 then 10 else if r = 5 then 8 else if r = 6 then 6
      else if r = 7 then 4 else if r = 8 then 2 else 0 :=
  calculate_points_closed r

/-- The white-space characters of Python `\s` / `str.strip` (ASCII range;
the scraped values only ever contain ASCII). -/
def isPySpace (c : Char) : Bool :=
  c = ' ' || c = '\t' || c = '\n' || c = '\r' || c = '\x0b' || c = '\x0c'

/-- Decimal digit run to a natural number. -/
def digitsToNat (ds : List Char) : Nat :=
  ds.foldl (fun acc c => 10 * acc + (c.toNat - '0'.toNat)) 0

/-- Python `int(s)` on a `str`: optional surrounding white space, optional
sign, then a non-empty digit run; anything else raises `ValueError`
(modelled as `none`). -/
def parsePyInt (s : String) : Option Int :=
  let cs := (s.data.dropWhile isPySpace).reverse.dropWhile isPySpace |>.reverse
  match cs with
  | '-' :: ds =>
      if ds ≠ [] ∧ ds.all Char.isDigit then some (-(digitsToNat ds : Int)) else none
  | '+' :: ds =>
      if ds ≠ [] ∧ ds.all Char.isDigit then some ((digitsToNat ds : Int)) else none
  | ds =>
      if ds ≠ [] ∧ ds.all Char.isDigit then some ((digitsToNat ds : Int)) else none

/-- A JSON-sourced `rank` / `position` value as it reaches `int(rank)`:
an int, a str, or `None` (JSON `null`). -/
inductive RankVal where
  | vint (n : Int)
  | vstr (s : String)
  | vnone
deriving DecidableEq

/-- `int(rank)` wrapped in `try/except (ValueError, TypeError)`
(bot.py lines 476-480): an int passes through, a str is parsed,
`None` raises `TypeError` (caught). -/
def coerceRank : RankVal → Option Int
  | .vint n => some n
  | .vstr s => parsePyInt s
  | .vnone => none

/-- One element of the extracted players array.  A field is `none` when the
key is absent from the JSON object; a present-but-null field is
`some .vnone`, exactly what Python `dict.get` distinguishes. -/
structure ScrapedRecord where
  tag : Option String
  name : Option String
  rank : Option RankVal
  position : Option RankVal
deriving DecidableEq

/-- One element of the matcher output `\x7b'tag', 'name', 'rank'\x7d`
(bot.py lines 145-149). -/
structure MatchRec where
  tag : String
  name : String
  rank : RankVal
deriving DecidableEq

/-- `player.get('tag', '').replace('#', '').upper()` (bot.py line 135):
every `#` is removed, then the string is upper-cased. -/
def normalize_tag (s : String) : String :=
  String.mk ((s.data.filter (fun c => c ≠ '#')).map Char.toUpper)

/-- `player.get('rank', player.get('position', 0))` (bot.py line 137). -/
def scrapedRank (p : ScrapedRecord) : RankVal :=
  p.rank.getD (p.position.getD (RankVal.vint 0))

/-- The loop body of `find_linked_players_in_top_8` (bot.py lines 134-149):
skip an empty normalized tag, emit the record when the tag is a key of
`player_data`. -/
def processPlayer (reg : Registry) (p : ScrapedRecord) : Option MatchRec :=
  let t := normalize_tag (p.tag.getD "")
  if t = "" then none
  else if (dictLookup t reg).isSome then
    some ⟨t, p.name.getD "Unknown", scrapedRank p⟩
  else none

/-- `RoyaleAPIScraper.find_linked_players_in_top_8` (bot.py lines 127-151):
`players[:8]`, then the filter loop in order. -/
def find_linked_players_in_top_8 (players : List ScrapedRecord) (reg : Registry) :
    List MatchRec :=
  (players.take 8).filterMap (processPlayer reg)

/-- The matcher as the spec words it (C6): first 8 records, normalize,
rank with `position` then sentinel-0 fallback, keep exactly the registry
keys, in encounter order.  Stated separately so the code-level matcher can
be proved to refine it. -/
def specMatcher (players : List ScrapedRecord) (reg : Registry) : List MatchRec :=
  (players.take 8).filterMap (fun p =>
    let t := normalize_tag (p.tag.getD "")
    if (dictLookup t reg).isSome then
      some ⟨t, p.name.getD "Unknown", scrapedRank p⟩
    else none)

lemma filterMap_ext {α β : Type} (f g : α → Option β) (l : List α)
    (h : ∀ a, f a = g a) : l.filterMap f = l.filterMap g := by
  induction l with
  | nil => rfl
  | cons a t ih => simp [List.filterMap_cons, h a, ih]

/-- C6: provided the empty string is not a registry key (registry keys are
validated tags of length at least 3), the matcher equals the spec matcher —
only the first 8 extractor records are considered, tags are normalized by
removing `#` and upper-casing, rank falls back from `rank` to `position`
to 0, exactly the registry-key records are emitted in encounter order —
and the output only depends on the first 8 records, so a registered tag at
position 9 or later never contributes. -/
theorem matcher_spec (players : List ScrapedRecord) (reg : Registry)
    (hempty : dictLookup "" reg = none) :
    find_linked_players_in_top_8 players reg = specMatcher players reg ∧
    find_linked_players_in_top_8 players reg =
      find_linked_players_in_top_8 (players.take 8) reg := by
  constructor
  · unfold find_linked_players_in_top_8 specMatcher
    refine filterMap_ext _ _ _ (fun p => ?_)
    unfold processPlayer
    by_cases h : normalize_tag (p.tag.getD "") = ""
    · simp [h, hempty]
    · simp [h]
  · unfold find_linked_players_in_top_8
    rw [List.take_take]
    norm_num

/-- C6 witness: a concrete linked player at rank 1 with a lower-case,
`#`-prefixed scraped tag is matched. -/
theorem matcher_spec_witness :
    dictLookup "" ([("PQR", ⟨1, 0, "X"⟩)] : Registry) = none ∧
      (find_linked_players_in_top_8
          [⟨some "#pqr", some "X", some (RankVal.vint 1), none⟩]
          [("PQR", ⟨1, 0, "X"⟩)] =
        specMatcher [⟨some "#pqr", some "X", some (RankVal.vint 1), none⟩]
          [("PQR", ⟨1, 0, "X"⟩)] ∧
      find_linked_players_in_top_8
          [⟨some "#pqr", some "X", some (RankVal.vint 1), none⟩]
          [("PQR", ⟨1, 0, "X"⟩)] =
        find_linked_players_in_top_8
          ([⟨some "#pqr", some "X", some (RankVal.vint 1), none⟩].take 8)
          [("PQR", ⟨1, 0, "X"⟩)]) :=
  ⟨by decide, matcher_spec _ _ (by decide)⟩

/-- One element of the `updates` list
(bot.py lines 490-496). -/
structure UpdateRec where
  tag : String
  name : String
  rank : Int
  points_added : Int
  total_points : Int
deriving DecidableEq

/-- The loop of `update_points_for_leaderboard` (bot.py lines 471-496):
coerce the rank (skip on failure), add positive deltas to
`player_data[tag]["points"]` (an absent tag would raise `KeyError`,
modelled as `Except.error`), and collect the applied updates in order. -/
def processUpdates : Registry → List MatchRec → Except String (Registry × List UpdateRec)
  | reg, [] => .ok (reg, [])
  | reg, m :: rest =>
    match coerceRank m.rank with
    | none => processUpdates reg rest
    | some r =>
      if 0 < calculate_points r then
        match dictLookup m.tag reg with
        | none => .error "KeyError"
        | some rec =>
          let newPts := rec.points + calculate_points r
          match processUpdates (updateEntry reg m.tag { rec with points := newPts }) rest with
          | .error e => .error e
          | .ok (rf, ups) => .ok (rf, ⟨m.tag, m.name, r, calculate_points r, newPts⟩ :: ups)
      else processUpdates reg rest

/-- `update_points_for_leaderboard` (bot.py lines 461-501) given the
matcher output: early return on an empty match list, otherwise the update
loop followed by `Database.save_player_data()` exactly when at least one
update was applied.  The `Nat` component counts persistence writes. -/
def update_points_for_leaderboard (reg : Registry) (linked : List MatchRec) :
    Except String (Registry × List UpdateRec × Nat) :=
  if linked.isEmpty then .ok (reg, [], 0)
  else
    match processUpdates reg linked with
    | .error e => .error e
    | .ok (rf, ups) => .ok (rf, ups, if ups.isEmpty then 0 else 1)

/-- The points currently recorded for a tag (0 when the tag is absent). -/
def pointsOf (reg : Registry) (t : String) : Int :=
  ((dictLookup t reg).map PlayerRec.points).getD 0

/-- The point delta a single matched record contributes (0 when its rank
cannot be coerced to an int). -/
def deltaOf (m : MatchRec) : Int :=
  match coerceRank m.rank with
  | some r => calculate_points r
  | none => 0

/-- Total delta a batch contributes to one tag. -/
def deltaSum (t : String) (linked : List MatchRec) : Int :=
  (linked.map (fun m => if m.tag = t then deltaOf m else 0)).sum

lemma dictLookup_mapReplace_self {α β : Type} [DecidableEq α]
    (d : List (α × β)) (k : α) (v : β) (h : (dictLookup k d).isSome) :
    dictLookup k (d.map (fun kv => if kv.1 = k then (kv.1, v) else kv)) = some v := by
  induction d with
  | nil => simp [dictLookup] at h
  | cons kv rest ih =>
    by_cases hk : kv.1 = k
    · simp [dictLookup, hk]
    · simp only [List.map_cons, if_neg hk, dictLookup] at h ⊢
      rw [if_neg (fun hs => hk hs.symm)] at h ⊢
      exact ih h

lemma dictLookup_mapReplace_other {α β : Type} [DecidableEq α]
    (d : List (α × β)) (k s : α) (v : β) (hne : s ≠ k) :
    dictLookup s (d.map (fun kv => if kv.1 = k then (kv.1, v) else kv)) =
      dictLookup s d := by
  induction d with
  | nil => rfl
  | cons kv rest ih =>
    by_cases hk : kv.1 = k
    · simp only [List.map_cons, if_pos hk, dictLookup]
      rw [if_neg (fun hs : s = kv.1 => hne (hs.trans hk)),
        if_neg (fun hs : s = kv.1 => hne (hs.trans hk))]
      exact ih
    · simp only [List.map_cons, if_neg hk, dictLookup]
      by_cases hs : s = kv.1
      · simp [hs]
      · rw [if_neg hs, if_neg hs]
        exact ih

lemma dictLookup_none_append {α β : Type} [DecidableEq α]
    (d l : List (α × β)) (k : α) (h : dictLookup k d = none) :
    dictLookup k (d ++ l) = dictLookup k l := by
  induction d with
  | nil => rfl
  | cons kv rest ih =>
    simp only [dictLookup, List.cons_append] at h ⊢
    by_cases hk : k = kv.1
    · simp [hk] at h
    · rw [if_neg hk] at h ⊢
      exact ih h

lemma dictLookup_append_left {α β : Type} [DecidableEq α]
    (d l : List (α × β)) (s : α) (hmiss : ∀ kv ∈ l, s ≠ kv.1) :
    dictLookup s (d ++ l) = dictLookup s d := by
  induction d with
  | nil =>
    simp only [List.nil_append, dictLookup]
    induction l with
    | nil => rfl
    | cons kv rest ih =>
      simp only [dictLookup]
      rw [if_neg (hmiss kv (List.mem_cons_self kv rest))]
      exact ih (fun x hx => hmiss x (List.mem_cons_of_mem kv hx))
  | cons kv rest ih =>
    simp only [dictLookup, List.cons_append]
    by_cases hs : s = kv.1
    · simp [hs]
    · rw [if_neg hs, if_neg hs]
      exact ih

lemma dictLookup_updateEntry_self {α β : Type} [DecidableEq α]
    (d : List (α × β)) (k : α) (v : β) :
    dictLookup k (updateEntry d k v) = some v := by
  unfold updateEntry
  by_cases h : (dictLookup k d).isSome
  · rw [if_pos h]
    exact dictLookup_mapReplace_self d k v h
  · rw [if_neg h]
    rw [dictLookup_none_append d _ k (Option.not_isSome_iff_eq_none.mp h)]
    simp [dictLookup]

lemma dictLookup_updateEntry_other {α β : Type} [DecidableEq α]
    (d : List (α × β)) (k s : α) (v : β) (hne : s ≠ k) :
    dictLookup s (updateEntry d k v) = dictLookup s d := by
  unfold updateEntry
  by_cases h : (dictLookup k d).isSome
  · rw [if_pos h]
    exact dictLookup_mapReplace_other d k s v hne
  · rw [if_neg h]
    exact dictLookup_append_left d _ s (by simpa using hne)

lemma dictLookup_updateEntry_isSome {α β : Type} [DecidableEq α]
    (d : List (α × β)) (k s : α) (v : β)
    (h : (dictLookup s d).isSome) :
    (dictLookup s (updateEntry d k v)).isSome := by
  by_cases hs : s = k
  · subst hs; rw [dictLookup_updateEntry_self]; rfl
  · rw [dictLookup_updateEntry_other _ _ _ _ hs]; exact h

lemma pointsOf_updateEntry (reg : Registry) (k : String) (v : PlayerRec) (t : String) :
    pointsOf (updateEntry reg k v) t = if t = k then v.points else pointsOf reg t := by
  unfold pointsOf
  by_cases h : t = k
  · subst h; rw [dictLookup_updateEntry_self, if_pos rfl]; rfl
  · rw [dictLookup_updateEntry_other _ _ _ _ h, if_neg h]

lemma deltaSum_cons (t : String) (m : MatchRec) (rest : List MatchRec) :
    deltaSum t (m :: rest) = (if m.tag = t then deltaOf m else 0) + deltaSum t rest := by
  simp [deltaSum]

/-- Main induction for the update batch: under the guarantee that every
matched tag is a registry key (which the matcher provides), the loop never
raises, each tag gains exactly the sum of its coerced-rank deltas, and the
update list is empty iff no record contributes a positive delta. -/
lemma processUpdates_ok :
    ∀ (linked : List MatchRec) (reg : Registry),
      (∀ m ∈ linked, (dictLookup m.tag reg).isSome) →
      ∃ rf ups, processUpdates reg linked = .ok (rf, ups) ∧
        (∀ t, pointsOf rf t = pointsOf reg t + deltaSum t linked) ∧
        (ups = [] ↔ ∀ m ∈ linked, deltaOf m ≤ 0) := by
  intro linked
  induction linked with
  | nil =>
    intro reg _
    exact ⟨reg, [], rfl, fun t => by simp [deltaSum], by simp⟩
  | cons m rest ih =>
    intro reg hreg
    have hm : (dictLookup m.tag reg).isSome := hreg m (List.mem_cons_self m rest)
    have hrest : ∀ x ∈ rest, (dictLookup x.tag reg).isSome :=
      fun x hx => hreg x (List.mem_cons_of_mem m hx)
    cases hc : coerceRank m.rank with
    | none =>
      obtain ⟨rf, ups, heq, hpts, hempty⟩ := ih reg hrest
      refine ⟨rf, ups, ?_, ?_, ?_⟩
      · simpa [processUpdates, hc] using heq
      · intro t
        rw [hpts t, deltaSum_cons]
        simp [deltaOf, hc]
      · rw [hempty]
        constructor
        · intro h x hx
          rcases List.mem_cons.mp hx with h1 | h1
          · subst h1; simp [deltaOf, hc]
          · exact h x h1
        · intro h x hx
          exact h x (List.mem_cons_of_mem m hx)
    | some r =>
      by_cases hpos : 0 < calculate_points r
      · obtain ⟨rec, hrec⟩ := Option.isSome_iff_exists.mp hm
        have hrest2 : ∀ x ∈ rest,
            (dictLookup x.tag
              (updateEntry reg m.tag { rec with points := rec.points + calculate_points r })).isSome :=
          fun x hx => dictLookup_updateEntry_isSome _ _ _ _ (hrest x hx)
        obtain ⟨rf, ups, heq, hpts, hempty⟩ :=
          ih (updateEntry reg m.tag { rec with points := rec.points + calculate_points r }) hrest2
        refine ⟨rf, ⟨m.tag, m.name, r, calculate_points r,
            rec.points + calculate_points r⟩ :: ups, ?_, ?_, ?_⟩
        · simp only [processUpdates, hc, hpos, if_true, hrec, heq]
        · intro t
          rw [hpts t, pointsOf_updateEntry, deltaSum_cons]
          by_cases ht : t = m.tag
          · rw [if_pos ht, if_pos (ht ▸ rfl)]
            have : pointsOf reg t = rec.points := by
              unfold pointsOf
              rw [ht, hrec]
              rfl
            rw [this]
            simp [deltaOf, hc, ht]
            ring
          · rw [if_neg ht, if_neg (fun h => ht h.symm)]
            ring_nf
        · constructor
          · intro h; exact absurd h (by simp)
          · intro h
            exfalso
            have := h m (List.mem_cons_self m rest)
            simp only [deltaOf, hc] at this
            omega
      · obtain ⟨rf, ups, heq, hpts, hempty⟩ := ih reg hrest
        have hz : calculate_points r = 0 :=
          le_antisymm (not_lt.mp hpos) (calculate_points_nonneg r)
        refine ⟨rf, ups, ?_, ?_, ?_⟩
        · simpa [processUpdates, hc, hpos] using heq
        · intro t
          rw [hpts t, deltaSum_cons]
          simp [deltaOf, hc, hz]
        · rw [hempty]
          constructor
          · intro h x hx
            rcases List.mem_cons.mp hx with h1 | h1
            · subst h1; simp [deltaOf, hc, hz]
            · exact h x h1
          · intro h x hx
            exact h x (List.mem_cons_of_mem m hx)

/-- C2: on a batch whose matched tags are registry keys, the update never
raises; a record whose rank fails int coercion is skipped while the rest
of the batch is still processed (stated as: such a head record leaves the
loop result unchanged); every tag ends with its points increased by
exactly the sum of its accepted deltas (a zero delta contributing
nothing); and the persistence write count is 1 when at least one delta
was applied (equivalently, some record has a positive coerced delta) and
0 otherwise. -/
theorem apply_updates_batch (reg : Registry) (linked : List MatchRec)
    (h : ∀ m ∈ linked, (dictLookup m.tag reg).isSome) :
    ∃ rf ups,
      update_points_for_leaderboard reg linked = .ok (rf, ups, if ups.isEmpty then 0 else 1) ∧
      (∀ t, pointsOf rf t = pointsOf reg t + deltaSum t linked) ∧
      (ups ≠ [] ↔ ∃ m ∈ linked, 0 < deltaOf m) ∧
      (∀ (reg₂ : Registry) (m : MatchRec) (rest : List MatchRec),
        coerceRank m.rank = none →
        processUpdates reg₂ (m :: rest) = processUpdates reg₂ rest) := by
  have hskip : ∀ (reg₂ : Registry) (m : MatchRec) (rest : List MatchRec),
      coerceRank m.rank = none →
      processUpdates reg₂ (m :: rest) = processUpdates reg₂ rest := by
    intro reg₂ m rest hc
    simp [processUpdates, hc]
  obtain ⟨rf, ups, heq, hpts, hempty⟩ := processUpdates_ok linked reg h
  by_cases hnil : linked.isEmpty
  · rw [List.isEmpty_iff] at hnil
    subst hnil
    refine ⟨reg, [], by simp [update_points_for_leaderboard], fun t => by simp [deltaSum], ?_, hskip⟩
    simp
  · refine ⟨rf, ups, ?_, hpts, ?_, hskip⟩
    · unfold update_points_for_leaderboard
      rw [if_neg hnil, heq]
    · constructor
      · intro hne
        by_contra hno
        push_neg at hno
        exact hne (hempty.mpr hno)
      · rintro ⟨m, hm, hgt⟩ hnilups
        have := hempty.mp hnilups m hm
        omega

/-- C2 witness: a single matched record at rank 1 for a linked tag gives
one applied delta of 20 and one persistence write. -/
theorem apply_updates_batch_witness :
    (∀ m ∈ ([⟨"PQR", "X", RankVal.vint 1⟩] : List MatchRec),
        (dictLookup m.tag ([("PQR", ⟨1, 0, "X"⟩)] : Registry)).isSome) ∧
    ∃ rf ups,
      update_points_for_leaderboard [("PQR", ⟨1, 0, "X"⟩)] [⟨"PQR", "X", RankVal.vint 1⟩] =
        .ok (rf, ups, if ups.isEmpty then 0 else 1) ∧
      (∀ t, pointsOf rf t =
        pointsOf [("PQR", ⟨1, 0, "X"⟩)] t + deltaSum t [⟨"PQR", "X", RankVal.vint 1⟩]) ∧
      (ups ≠ [] ↔ ∃ m ∈ ([⟨"PQR", "X", RankVal.vint 1⟩] : List MatchRec), 0 < deltaOf m) ∧
      (∀ (reg₂ : Registry) (m : MatchRec) (rest : List MatchRec),
        coerceRank m.rank = none →
        processUpdates reg₂ (m :: rest) = processUpdates reg₂ rest) :=
  ⟨by decide, apply_updates_batch _ _ (by decide)⟩

/-- The JSON object written by `Database.save_player_data`
(bot.py lines 202-205): both `player_data` and `user_accounts` are
serialized.  JSON stringifies dict keys, so the persisted
`user_accounts` keys are strings. -/
structure SaveData where
  player_data : Registry
  user_accounts : List (String × List String)
deriving DecidableEq

/-- State of one on-disk file: absent, present but unreadable/unparseable
(any exception on open or `json.load`), or present with a parsed value. -/
inductive FileState where
  | absent
  | corrupt
  | valid (d : SaveData)
deriving DecidableEq

/-- The two stores of the persistence layer. -/
structure FS where
  primary : FileState
  backup : FileState
deriving DecidableEq

/-- JSON serialization of a dict key: `json.dump` turns an int key into its
decimal string and leaves a str key unchanged. -/
def pyKeyStr : PyKey → String
  | .intKey n => toString n
  | .strKey s => s

/-- The `user_accounts` dict as it appears in the written JSON. -/
def serializeIdx (idx : Index) : List (String × List String) :=
  idx.map (fun kv => (pyKeyStr kv.1, kv.2))

/-- A loaded `user_accounts` dict: `json.load` yields str keys and the code
does not convert them back. -/
def strIdx (l : List (String × List String)) : Index :=
  l.map (fun kv => (PyKey.strKey kv.1, kv.2))

/-- `Database.save_player_data` (bot.py lines 200-220): copy the existing
primary file (whatever its content) over the backup, then write
`\x7b'player_data': ..., 'user_accounts': ...\x7d` to the primary. -/
def save_player_data (reg : Registry) (idx : Index) (fs : FS) : FS :=
  ⟨FileState.valid ⟨reg, serializeIdx idx⟩,
    match fs.primary with
    | .absent => fs.backup
    | p => p⟩

/-- `Database.load_player_data` (bot.py lines 222-257).  The whole body is
a `try/except` that on any exception resets both dicts to empty, so the
function never raises: every branch is `Except.ok`.  The backup is read
only when the primary file does not exist. -/
def load_player_data (fs : FS) : Except String (Registry × Index) :=
  match fs.primary with
  | .valid d => .ok (d.player_data, strIdx d.user_accounts)
  | .corrupt => .ok ([], [])
  | .absent =>
    match fs.backup with
    | .valid d => .ok (d.player_data, strIdx d.user_accounts)
    | .corrupt => .ok ([], [])
    | .absent => .ok ([], [])

/-- The in-memory state right after `Database.load_player_data()`. -/
def loadedState (fs : FS) : Registry × Index :=
  match load_player_data fs with
  | .ok st => st
  | .error _ => ([], [])

/-- The body of `update_user_accounts` for one registry entry
(bot.py lines 264-269): create the owner's entry if missing, then append
the tag if not already present. -/
def idxAdd (acc : Index) (k : PyKey) (t : String) : Index :=
  match dictLookup k acc with
  | none => acc ++ [(k, [t])]
  | some _ =>
      acc.map (fun kv =>
        if kv.1 = k then (kv.1, if t ∈ kv.2 then kv.2 else kv.2 ++ [t]) else kv)

/-- `update_user_accounts` (bot.py lines 259-269): rebuild `user_accounts`
from scratch from `player_data`, keyed by the int `discord_id`. -/
def update_user_accounts (reg : Registry) : Index :=
  reg.foldl (fun acc kv => idxAdd acc (PyKey.intKey kv.2.discord_id) kv.1) []

/-- The startup sequence of `on_ready` / `__main__`
(bot.py lines 280-281 and 705-706): load, then rebuild the index from the
loaded records. -/
def startupState (fs : FS) : Registry × Index :=
  ((loadedState fs).1, update_user_accounts (loadedState fs).1)

/-- C3 counterexample: with a corrupt primary and a valid non-empty
backup, `load_player_data` returns the empty registry — the `except`
branch runs instead of the backup fallback the claim describes; the
backup is only consulted when the primary file is absent. -/
theorem load_corrupt_primary_ignores_backup :
    load_player_data
        ⟨FileState.corrupt, FileState.valid ⟨[("PQR", ⟨1, 20, "X"⟩)], []⟩⟩ =
      .ok (([] : Registry), ([] : Index)) ∧
    ([("PQR", (⟨1, 20, "X"⟩ : PlayerRec))] : Registry) ≠ [] :=
  ⟨rfl, by decide⟩

/-- C3 amended: `load_player_data` tries the primary store first and never
raises; with the primary present and parseable it returns its contents;
a read/parse failure of the primary yields the empty registry (the backup
is NOT consulted); only when the primary is absent is the backup read,
a valid backup then supplying the loaded contents; a corrupt backup or
two absent stores yield the empty registry. -/
theorem load_fallback_semantics (fs : FS) :
    (∃ out, load_player_data fs = .ok out) ∧
    (∀ d, fs.primary = .valid d →
      load_player_data fs = .ok (d.player_data, strIdx d.user_accounts)) ∧
    (fs.primary = .corrupt → load_player_data fs = .ok ([], [])) ∧
    (fs.primary = .absent → ∀ d, fs.backup = .valid d →
      load_player_data fs = .ok (d.player_data, strIdx d.user_accounts)) ∧
    (fs.primary = .absent → fs.backup = .corrupt →
      load_player_data fs = .ok ([], [])) ∧
    (fs.primary = .absent → fs.backup = .absent →
      load_player_data fs = .ok ([], [])) := by
  obtain ⟨p, b⟩ := fs
  cases p <;> cases b <;> simp [load_player_data]

/-- C3 amended witness: with only a (valid) backup present the load
returns the backup's contents. -/
theorem load_fallback_semantics_witness :
    load_player_data
        ⟨FileState.absent, FileState.valid ⟨[("PQR", ⟨1, 20, "X"⟩)], []⟩⟩ =
      .ok ([("PQR", ⟨1, 20, "X"⟩)], strIdx []) :=
  (load_fallback_semantics _).2.2.2.1 rfl _ rfl

/-- C4 counterexample: `save_player_data` persists the derived Ownership
Index too — the written primary file contains a non-empty
`user_accounts` object (with the int owner key stringified), refuting
"only the identity record set is written / the index is never
persisted". -/
theorem save_persists_index :
    (save_player_data [("PQR", ⟨5, 0, "X"⟩)] [(PyKey.intKey 5, ["PQR"])]
        ⟨FileState.absent, FileState.absent⟩).primary =
      FileState.valid ⟨[("PQR", ⟨5, 0, "X"⟩)], [("5", ["PQR"])]⟩ ∧
    ([("5", ["PQR"])] : List (String × List String)) ≠ [] :=
  ⟨rfl, by decide⟩

/-- C4 amended: `save_player_data` persists both the identity records and
the current Ownership Index (keys stringified by JSON);
`load_player_data` takes the index straight from the file; but the
startup sequence (`on_ready` / `__main__`) runs `update_user_accounts`
right after loading, so the in-memory index in use is rebuilt solely
from the loaded identity records. -/
theorem save_load_index_semantics (reg : Registry) (idx : Index) (fs : FS) :
    (save_player_data reg idx fs).primary = FileState.valid ⟨reg, serializeIdx idx⟩ ∧
    load_player_data (save_player_data reg idx fs) =
      .ok (reg, strIdx (serializeIdx idx)) ∧
    startupState (save_player_data reg idx fs) = (reg, update_user_accounts reg) :=
  ⟨rfl, rfl, rfl⟩

/-- C5: saving any registry state and loading it back reproduces an
equivalent Identity Registry — the loaded registry answers every tag
lookup (tag membership, points, owner, name) exactly as the saved one;
the index component is excluded from the comparison. -/
theorem save_load_roundtrip (reg : Registry) (idx : Index) (fs : FS) :
    ∃ ua reg2, load_player_data (save_player_data reg idx fs) = .ok (reg2, ua) ∧
      ∀ t, dictLookup t reg2 = dictLookup t reg :=
  ⟨strIdx (serializeIdx idx), reg, rfl, fun _ => rfl⟩

/-- An index whose keys are the in-memory ints, as `link`/
`update_user_accounts` build it. -/
def intIdx (idx : List (Int × List String)) : Index :=
  idx.map (fun kv => (PyKey.intKey kv.1, kv.2))

/-- The same index after a JSON round trip: keys are the decimal strings. -/
def strOfIntIdx (idx : List (Int × List String)) : Index :=
  idx.map (fun kv => (PyKey.strKey (toString kv.1), kv.2))

lemma dictLookup_mapAdjust_self {α β : Type} [DecidableEq α]
    (d : List (α × β)) (k : α) (f : β → β) (l : β) (h : dictLookup k d = some l) :
    dictLookup k (d.map (fun kv => if kv.1 = k then (kv.1, f kv.2) else kv)) =
      some (f l) := by
  induction d with
  | nil => simp [dictLookup] at h
  | cons kv rest ih =>
    obtain ⟨k1, v1⟩ := kv
    by_cases hk : k1 = k
    · subst hk
      simp only [dictLookup, if_pos rfl] at h
      simp [dictLookup, Option.some_inj.mp h]
    · simp only [dictLookup, if_neg (fun hs : k = k1 => hk hs.symm)] at h
      simp only [List.map_cons, if_neg hk, dictLookup,
        if_neg (fun hs : k = k1 => hk hs.symm)]
      exact ih h

lemma dictLookup_mapAdjust_other {α β : Type} [DecidableEq α]
    (d : List (α × β)) (k s : α) (f : β → β) (hne : s ≠ k) :
    dictLookup s (d.map (fun kv => if kv.1 = k then (kv.1, f kv.2) else kv)) =
      dictLookup s d := by
  induction d with
  | nil => rfl
  | cons kv rest ih =>
    by_cases hk : kv.1 = k
    · simp only [List.map_cons, if_pos hk, dictLookup]
      rw [if_neg (fun hs : s = kv.1 => hne (hs.trans hk)),
        if_neg (fun hs : s = kv.1 => hne (hs.trans hk))]
      exact ih
    · simp only [List.map_cons, if_neg hk, dictLookup]
      by_cases hs : s = kv.1
      · simp [hs]
      · rw [if_neg hs, if_neg hs]
        exact ih

lemma idxAdd_self_isSome (acc : Index) (k : PyKey) (t : String) :
    (dictLookup k (idxAdd acc k t)).isSome := by
  cases h : dictLookup k acc with
  | none =>
    simp only [idxAdd, h]
    rw [dictLookup_none_append acc _ k h]
    simp [dictLookup]
  | some l =>
    simp only [idxAdd, h]
    rw [dictLookup_mapAdjust_self acc k
      (fun v2 => if t ∈ v2 then v2 else v2 ++ [t]) l h]
    rfl

lemma idxAdd_preserve (acc : Index) (k k2 : PyKey) (t : String)
    (h : (dictLookup k acc).isSome) :
    (dictLookup k (idxAdd acc k2 t)).isSome := by
  by_cases hk : k = k2
  · subst hk; exact idxAdd_self_isSome acc k t
  · cases h2 : dictLookup k2 acc with
    | none =>
      simp only [idxAdd, h2]
      rw [dictLookup_append_left acc _ k (by simpa using hk)]
      exact h
    | some l =>
      simp only [idxAdd, h2]
      rw [dictLookup_mapAdjust_other acc k2 k
        (fun v2 => if t ∈ v2 then v2 else v2 ++ [t]) hk]
      exact h

lemma foldl_uua_preserve (reg : Registry) :
    ∀ (acc : Index) (k : PyKey), (dictLookup k acc).isSome →
      (dictLookup k
        (reg.foldl (fun acc2 kv => idxAdd acc2 (PyKey.intKey kv.2.discord_id) kv.1) acc)).isSome := by
  induction reg with
  | nil => intro acc k h; exact h
  | cons kv rest ih =>
    intro acc k h
    exact ih _ k (idxAdd_preserve acc k _ kv.1 h)

lemma foldl_uua_mem (reg : Registry) :
    ∀ (acc : Index) (t : String) (rec : PlayerRec), (t, rec) ∈ reg →
      (dictLookup (PyKey.intKey rec.discord_id)
        (reg.foldl (fun acc2 kv => idxAdd acc2 (PyKey.intKey kv.2.discord_id) kv.1) acc)).isSome := by
  induction reg with
  | nil => intro _ _ _ h; cases h
  | cons kv rest ih =>
    intro acc t rec hmem
    rcases List.mem_cons.mp hmem with h1 | h1
    · subst h1
      exact foldl_uua_preserve rest _ _ (idxAdd_self_isSome acc _ t)
    · exact ih _ t rec h1

lemma dictLookup_strOfIntIdx_int (idx : List (Int × List String)) (n : Int) :
    dictLookup (PyKey.intKey n) (strOfIntIdx idx) = none := by
  induction idx with
  | nil => rfl
  | cons kv rest ih =>
    simp only [strOfIntIdx, List.map_cons, dictLookup] at ih ⊢
    rw [if_neg (by simp)]
    exact ih

/-- C10: after `save_player_data` followed by `load_player_data`, the
in-memory `user_accounts` keys are the decimal-string forms of the owner
ids (JSON stringifies int dict keys and load does not convert them back),
so every lookup by the original int owner id misses; the index answers
int lookups again only once `update_user_accounts` rebuilds it from the
identity records. -/
theorem index_keys_stringified (reg : Registry) (idx : List (Int × List String))
    (fs : FS) (_hne : reg ≠ []) :
    loadedState (save_player_data reg (intIdx idx) fs) = (reg, strOfIntIdx idx) ∧
    (∀ n : Int, dictLookup (PyKey.intKey n) (strOfIntIdx idx) = none) ∧
    (∀ (t : String) (rec : PlayerRec), (t, rec) ∈ reg →
      (dictLookup (PyKey.intKey rec.discord_id) (update_user_accounts reg)).isSome) := by
  refine ⟨?_, fun n => dictLookup_strOfIntIdx_int idx n,
    fun t rec hmem => foldl_uua_mem reg [] t rec hmem⟩
  simp only [loadedState, save_player_data, load_player_data, strIdx, serializeIdx,
    intIdx, strOfIntIdx, pyKeyStr, List.map_map]
  rfl

/-- C10 witness: one linked record and one int-keyed index entry; after the
round trip the int lookup misses, and it hits again after the rebuild. -/
theorem index_keys_stringified_witness :
    loadedState (save_player_data [("PQR", ⟨5, 0, "X"⟩)] (intIdx [(5, ["PQR"])])
        ⟨FileState.absent, FileState.absent⟩) =
      ([("PQR", ⟨5, 0, "X"⟩)], strOfIntIdx [(5, ["PQR"])]) ∧
    dictLookup (PyKey.intKey 5) (strOfIntIdx [(5, ["PQR"])]) = none ∧
    (dictLookup (PyKey.intKey 5)
      (update_user_accounts [("PQR", ⟨5, 0, "X"⟩)])).isSome := by
  have h := index_keys_stringified [("PQR", ⟨5, 0, "X"⟩)] [(5, ["PQR"])]
    ⟨FileState.absent, FileState.absent⟩ (by decide)
  exact ⟨h.1, h.2.1 5, h.2.2 "PQR" ⟨5, 0, "X"⟩ (by decide)⟩

/-- Python `round(x, 1)`: nearest multiple of 1/10, ties to the even
choice (CPython rounds half to even; the inputs of interest are exactly
representable, so exact rational rounding models the float call). -/
def roundPy1 (x : ℚ) : ℚ :=
  let f : Int := Int.floor (10 * x)
  let frac : ℚ := 10 * x - (f : ℚ)
  let r : Int :=
    if frac < 1/2 then f
    else if 1/2 < frac then f + 1
    else if f % 2 = 0 then f else f + 1
  (r : ℚ) / 10

/-- Half-up rounding to one decimal place, as the spec words the rounding
rule.  Stated to be compared with the code's `roundPy1`. -/
def roundHalfUp1 (x : ℚ) : ℚ :=
  let f : Int := Int.floor (10 * x)
  let frac : ℚ := 10 * x - (f : ℚ)
  ((if frac < 1/2 then f else f + 1 : Int) : ℚ) / 10

/-- `sum(player_points.values())` (bot.py line 173). -/
def totalPoints (pts : List (String × Int)) : Int :=
  (pts.map (fun kv => kv.2)).sum

/-- `PointManager.calculate_order_percentages` (bot.py lines 170-182):
empty dict when the total is 0, otherwise
`round((points / total) * 100, 1)` per owner, in dict order. -/
def calculate_order_percentages (pts : List (String × Int)) : List (String × ℚ) :=
  if totalPoints pts = 0 then []
  else pts.map (fun kv =>
    (kv.1, roundPy1 (((kv.2 : ℚ) / (totalPoints pts : ℚ)) * 100)))

/-- C7 counterexample: for totals A=1, B=15 the share of A is
100/16 = 6.25; the code (Python `round`, ties to even) yields 6.2 while
the claimed half-up rounding yields 6.3. -/
theorem order_percentages_not_half_up :
    calculate_order_percentages [("A", 1), ("B", 15)] =
      [("A", 31/5), ("B", 469/5)] ∧
    roundHalfUp1 (100 * (1 : ℚ) / 16) = 63/10 ∧
    ((31/5 : ℚ)) ≠ 63/10 := by
  refine ⟨?_, ?_, by norm_num⟩
  · have h16 : totalPoints [("A", 1), ("B", 15)] = 16 := by simp [totalPoints]
    have hA : roundPy1 (25 / 4) = 31 / 5 := by
      have hf : ⌊(10 : ℚ) * (25 / 4)⌋ = 62 := by norm_num [Int.floor_eq_iff]
      simp only [roundPy1, hf]
      norm_num
    have hB : roundPy1 (375 / 4) = 469 / 5 := by
      have hf : ⌊(10 : ℚ) * (375 / 4)⌋ = 937 := by norm_num [Int.floor_eq_iff]
      simp only [roundPy1, hf]
      norm_num
    simp only [calculate_order_percentages, h16, List.map_cons, List.map_nil]
    norm_num
    exact ⟨hA, hB⟩
  · have hf : ⌊(10 : ℚ) * (100 * 1 / 16)⌋ = 62 := by norm_num [Int.floor_eq_iff]
    simp only [roundHalfUp1, hf]
    norm_num

/-- C7 amended: `calculate_order_percentages` returns the empty mapping
when the total is 0; otherwise it returns, for every owner in the input,
the share `100 * points / total` rounded to one decimal place with
Python's round-half-to-even (not half-up) — in particular totals
A=100, B=0 yield 100.0 for A and 0.0 for B. -/
theorem order_percentages_rounding (pts : List (String × Int)) :
    (totalPoints pts = 0 → calculate_order_percentages pts = []) ∧
    (totalPoints pts ≠ 0 → calculate_order_percentages pts =
      pts.map (fun kv =>
        (kv.1, roundPy1 (100 * (kv.2 : ℚ) / (totalPoints pts : ℚ))))) := by
  constructor
  · intro h
    simp [calculate_order_percentages, h]
  · intro h
    simp only [calculate_order_percentages, if_neg h]
    have hfun :
        (fun kv : String × Int =>
          (kv.1, roundPy1 (((kv.2 : ℚ) / (totalPoints pts : ℚ)) * 100)))
        = (fun kv : String × Int =>
          (kv.1, roundPy1 (100 * (kv.2 : ℚ) / (totalPoints pts : ℚ)))) := by
      funext kv
      have : ((kv.2 : ℚ) / (totalPoints pts : ℚ)) * 100
          = 100 * (kv.2 : ℚ) / (totalPoints pts : ℚ) := by ring
      rw [this]
    rw [hfun]

/-- C7 amended witness: owner totals A=100, B=0 give shares 100.0 and
0.0. -/
theorem order_percentages_rounding_witness :
    totalPoints [("A", 100), ("B", 0)] ≠ 0 ∧
    calculate_order_percentages [("A", 100), ("B", 0)] = [("A", 100), ("B", 0)] := by
  have h := (order_percentages_rounding [("A", 100), ("B", 0)]).2 (by decide)
  refine ⟨by decide, ?_⟩
  rw [h]
  norm_num [roundPy1, totalPoints]

/-- The closing-brace and opening-brace characters. -/
def rbraceChar : Char := Char.ofNat 125

def lbraceChar : Char := Char.ofNat 123

/-- Attempt to match the tail of the regex `,\s*C` (for a closing character
`C`) right after a comma: greedily skip white space, then require `C`.
Returns the remainder after the match.  Maximal-munch is exact here since
`\s*` is followed by a non-space character. -/
def matchCommaClose (close : Char) (rest : List Char) : Option (List Char) :=
  match rest.dropWhile isPySpace with
  | c :: t => if c = close then some t else none
  | [] => none

/-- One pass of `re.sub(r',\s*C', 'C', s)`: scan left to right, replace
each non-overlapping match, resume after the replacement.  Fuelled for
structural recursion; each step consumes at least one character, so fuel
`cs.length` always suffices. -/
def subCCAux (close : Char) : Nat → List Char → List Char
  | 0, cs => cs
  | _ + 1, [] => []
  | fuel + 1, c :: rest =>
    if c = ',' then
      match matchCommaClose close rest with
      | some t => close :: subCCAux close fuel t
      | none => c :: subCCAux close fuel rest
    else c :: subCCAux close fuel rest

def subCC (close : Char) (cs : List Char) : List Char :=
  subCCAux close cs.length cs

/-- The trailing-comma cleanup of `extract_player_data_from_json`
(bot.py lines 111-112): first `re.sub(r',\s*]', ']', s)`, then
`re.sub(r',\s*\x7d', '\x7d', s)`. -/
def clean_json_str (s : String) : String :=
  String.mk (subCC rbraceChar (subCC ']' s.data))

/-- Whether the text contains an occurrence of `,\s*C`. -/
def hasPat (close : Char) : List Char → Bool
  | [] => false
  | c :: rest => (c = ',' && (matchCommaClose close rest).isSome) || hasPat close rest

/-- A JSON value, used to produce well-formed JSON text (no trailing
commas by construction) for the idempotence claim. -/
inductive Json where
  | jnum (n : Int)
  | jstr (s : String)
  | jarr (l : List Json)
  | jobj (l : List (String × Json))

/-- JSON string escaping (quote and backslash; the strings of interest
contain no control characters). -/
def escapeChar (c : Char) : List Char :=
  if c = '"' then ['\\', '"'] else if c = '\\' then ['\\', '\\'] else [c]

mutual

/-- Standard JSON rendering: elements separated by single commas, never a
comma directly before `]` or `\x7d`. -/
def renderJson : Json → List Char
  | .jnum n => (toString n).data
  | .jstr s => '"' :: (s.data.map escapeChar).flatten ++ ['"']
  | .jarr l => '[' :: renderArr l ++ [']']
  | .jobj l => lbraceChar :: renderObj l ++ [rbraceChar]

def renderArr : List Json → List Char
  | [] => []
  | [x] => renderJson x
  | x :: y :: rest => renderJson x ++ ',' :: renderArr (y :: rest)

def renderObj : List (String × Json) → List Char
  | [] => []
  | [kv] => '"' :: (kv.1.data.map escapeChar).flatten ++ ['"', ':'] ++ renderJson kv.2
  | kv :: kv2 :: rest =>
      ('"' :: (kv.1.data.map escapeChar).flatten ++ ['"', ':'] ++ renderJson kv.2)
        ++ ',' :: renderObj (kv2 :: rest)

end

/-- C8 counterexample: `["a,,]"]` is valid JSON with no trailing comma
before any `]`/`\x7d` (the `,,]` sits inside a string literal), yet the
regex cleanup is applied to raw text: one application rewrites it to
`["a,]"]` and a second application rewrites that to `["a]"]`, so applying
the cleanup twice differs from applying it once. -/
theorem cleanup_not_idempotent_on_valid_json :
    renderJson (Json.jarr [Json.jstr "a,,]"]) = "[\"a,,]\"]".data ∧
    clean_json_str (clean_json_str (String.mk (renderJson (Json.jarr [Json.jstr "a,,]"])))) ≠
      clean_json_str (String.mk (renderJson (Json.jarr [Json.jstr "a,,]"]))) := by
  have hr : renderJson (Json.jarr [Json.jstr "a,,]"]) = "[\"a,,]\"]".data := by
    simp [renderJson, renderArr, escapeChar]
  refine ⟨hr, ?_⟩
  rw [hr]
  decide

lemma subCCAux_id (close : Char) :
    ∀ (n : Nat) (cs : List Char), hasPat close cs = false → subCCAux close n cs = cs := by
  intro n
  induction n with
  | zero => intro cs _; rfl
  | succ m ih =>
    intro cs h
    cases cs with
    | nil => rfl
    | cons c rest =>
      simp only [hasPat, Bool.or_eq_false_iff, Bool.and_eq_false_iff] at h
      obtain ⟨h3, h4⟩ := h
      simp only [subCCAux]
      by_cases hc : c = ','
      · rw [if_pos hc]
        cases hm : matchCommaClose close rest with
        | some t =>
          exfalso
          rw [hm] at h3
          simp [hc] at h3
        | none => rw [ih rest h4]
      · rw [if_neg hc, ih rest h4]

lemma subCC_id (close : Char) (cs : List Char) (h : hasPat close cs = false) :
    subCC close cs = cs :=
  subCCAux_id close cs.length cs h

/-- C8 amended: on any text with no occurrence of a comma followed by
optional white space and then `]` or `\x7d` — in particular on JSON
rendered without trailing commas whose string literals also avoid that
raw-text pattern — the cleanup step is the identity, hence applying it
twice yields exactly the output of applying it once. -/
theorem cleanup_idempotent_on_pattern_free (s : String)
    (h1 : hasPat ']' s.data = false) (h2 : hasPat rbraceChar s.data = false) :
    clean_json_str s = s ∧
    clean_json_str (clean_json_str s) = clean_json_str s := by
  have hid : clean_json_str s = s := by
    unfold clean_json_str
    rw [subCC_id ']' s.data h1, subCC_id rbraceChar s.data h2]
  exact ⟨hid, by rw [hid, hid]⟩

/-- C8 amended witness: a typical clean extracted array is left unchanged
by the cleanup, and a second application changes nothing. -/
theorem cleanup_idempotent_witness :
    hasPat ']' "[\x7b\"tag\": \"PQR\"\x7d]".data = false ∧
    hasPat rbraceChar "[\x7b\"tag\": \"PQR\"\x7d]".data = false ∧
    (clean_json_str "[\x7b\"tag\": \"PQR\"\x7d]" = "[\x7b\"tag\": \"PQR\"\x7d]" ∧
     clean_json_str (clean_json_str "[\x7b\"tag\": \"PQR\"\x7d]") =
       clean_json_str "[\x7b\"tag\": \"PQR\"\x7d]") :=
  ⟨by decide, by decide,
    cleanup_idempotent_on_pattern_free _ (by decide) (by decide)⟩

/-- The Clash Royale tag alphabet of `validate_player_tag`
(bot.py line 274). -/
def ALPHABET : List Char :=
  ['0', '2', '8', '9', 'P', 'Y', 'L', 'Q', 'G', 'R', 'J', 'C', 'U', 'V']

/-- At least 3 characters, all from the alphabet: the `[0289PYLQGRJCUV]{3,}`
core of the validation pattern. -/
def tagCore (cs : List Char) : Bool :=
  decide (3 ≤ cs.length) && cs.all (fun c => ALPHABET.contains c)

/-- `re.match(r'^[0289PYLQGRJCUV]\x7b3,\x7d$', s)` as a Boolean: Python `$`
also matches just before a newline that ends the string, so the pattern
accepts an alphabet core optionally followed by one final newline. -/
def pyTagMatch (cs : List Char) : Bool :=
  tagCore cs ||
    (match cs.getLast? with
     | some c => c = '\n' && tagCore cs.dropLast
     | none => false)

/-- `validate_player_tag` (bot.py lines 271-275): upper-case, then the
anchored regex match. -/
def validate_player_tag (tag : String) : Bool :=
  pyTagMatch (tag.data.map Char.toUpper)

/-- Outcome of the `/link` command body. -/
inductive LinkResult where
  | invalidTag
  | alreadyLinked
  | success
deriving DecidableEq

/-- The `user_accounts` mutation of `link_slash` (bot.py lines 320-322):
create the owner's entry if missing, then append the tag
(unconditionally). -/
def linkIdxAdd (idx : Index) (k : PyKey) (t : String) : Index :=
  match dictLookup k idx with
  | none => idx ++ [(k, [t])]
  | some _ => idx.map (fun kv => if kv.1 = k then (kv.1, kv.2 ++ [t]) else kv)

/-- `link_slash` (bot.py lines 299-324): normalize the tag, reject an
empty or invalid tag, reject a tag already linked, otherwise create the
Identity Record with 0 points and update both dicts. -/
def link_slash (player_tag : String) (discord_id : Int) (display_name : String)
    (reg : Registry) (idx : Index) : LinkResult × Registry × Index :=
  let t := normalize_tag player_tag
  if t = "" ∨ validate_player_tag t = false then (.invalidTag, reg, idx)
  else if (dictLookup t reg).isSome then (.alreadyLinked, reg, idx)
  else (.success, updateEntry reg t ⟨discord_id, 0, display_name⟩,
    linkIdxAdd idx (PyKey.intKey discord_id) t)

/-- C9 counterexample: the normalized tag of the argument `"028\n"` is
`"028\n"`, which does not consist solely of alphabet characters, so the
claim demands an `InvalidTag` rejection with no record created — but
Python `$` accepts the trailing newline, so the code links it and creates
an Identity Record. -/
theorem link_accepts_trailing_newline :
    link_slash "028\n" 7 "X" [] [] =
      (LinkResult.success, [("028\n", ⟨7, 0, "X"⟩)], [(PyKey.intKey 7, ["028\n"])]) ∧
    '\n' ∈ "028\n".data ∧ ALPHABET.contains '\n' = false :=
  ⟨by decide, by decide, by decide⟩

/-- C9 amended: provided a tag present in the registry is itself non-empty
and passes validation (true of every tag the code ever inserts), `link`
rejects with `AlreadyLinked` when the normalized tag is already a key,
rejects with `InvalidTag` when the normalized tag fails the validation
pattern — at least 3 alphabet characters optionally followed by one
trailing newline (the Python `$` quirk), the empty tag included — and in
either failure case the registry and index are unchanged; on success an
Identity Record with the owner id, 0 points and the display name is
appended and the tag is added to the owner's index entry. -/
theorem link_semantics (tag : String) (owner : Int) (name : String)
    (reg : Registry) (idx : Index)
    (hkeys : (dictLookup (normalize_tag tag) reg).isSome →
      normalize_tag tag ≠ "" ∧ validate_player_tag (normalize_tag tag) = true) :
    ((dictLookup (normalize_tag tag) reg).isSome →
      link_slash tag owner name reg idx = (.alreadyLinked, reg, idx)) ∧
    ((normalize_tag tag = "" ∨ validate_player_tag (normalize_tag tag) = false) →
      link_slash tag owner name reg idx = (.invalidTag, reg, idx)) ∧
    (normalize_tag tag ≠ "" → validate_player_tag (normalize_tag tag) = true →
      dictLookup (normalize_tag tag) reg = none →
      link_slash tag owner name reg idx =
        (.success, reg ++ [(normalize_tag tag, ⟨owner, 0, name⟩)],
          linkIdxAdd idx (PyKey.intKey owner) (normalize_tag tag))) := by
  refine ⟨?_, ?_, ?_⟩
  · intro hsome
    obtain ⟨hne, hval⟩ := hkeys hsome
    unfold link_slash
    rw [if_neg (by simp [hne, hval]), if_pos hsome]
  · intro hbad
    unfold link_slash
    rw [if_pos hbad]
  · intro hne hval hnone
    unfold link_slash
    rw [if_neg (by simp [hne, hval]), if_neg (by simp [hnone])]
    unfold updateEntry
    rw [if_neg (by simp [hnone])]

/-- C9 amended witness: linking the fresh, valid tag `#pqr` (normalized to
`PQR`) into the empty registry succeeds and creates the record. -/
theorem link_semantics_witness :
    link_slash "#pqr" 7 "Z" [] [] =
      (LinkResult.success, [("PQR", ⟨7, 0, "Z"⟩)], [(PyKey.intKey 7, ["PQR"])]) := by
  have h := (link_semantics "#pqr" 7 "Z" [] [] (by decide)).2.2
    (by decide) (by decide) (by decide)
  simpa using h

end CRLBot
